import Mathlib

set_option maxRecDepth 10000

/-! Shallow embedding of `scripts/dont_panic.py`: the tile-atlas resolution
engine (`TileDataLoader`), the glyph-grid builder (`expand_pattern`,
`build_grid`) and the per-cell layer assembly of `render_dont_panic`.
Machine floats (rotation, jitter) are modelled as rationals; the `random`
module is modelled as a pure generator threaded as explicit state; Python
exceptions (the `KeyError` on `chunk['file']`) are modelled with `Except`. -/

/-- Pixel dimensions of the spritesheet files on disk: `fs name = some (w, h)`
when the file exists and decodes, `none` when it is missing. Models the images
read through PIL and the `image_cache` (the cache is semantically transparent
because the filesystem is read-only during a run). -/
abbrev FileDims : Type := String → Option (Nat × Nat)

/-- Metadata for a single grid cell (dataclass `CellData`). -/
structure CellData where
  item_id : String
  terrain_id : String
  rotation : Rat
  flip_h : Bool
  offset_x : Rat
  offset_y : Rat
  deriving DecidableEq

/-- Resolved tile position (dataclass `TilePosition`). -/
structure TilePosition where
  file : String
  tx : Int
  ty : Int
  width : Nat
  height : Nat
  offx : Int
  offy : Int
  deriving DecidableEq

/-- Foreground/background pair (dataclass `TileInfo`). -/
structure TileInfo where
  fg : Option TilePosition
  bg : Option TilePosition
  deriving DecidableEq

/-- An element of a JSON `fg`/`bg` array: a plain sprite index or an object
carrying an optional `sprite` index. -/
inductive FgElem where
  | num (i : Int)
  | obj (sprite : Option Int)
  deriving DecidableEq

/-- A JSON `fg`/`bg` reference in one of the three accepted shapes: scalar
index, list of indices/objects, or an object with an optional `sprite` key. -/
inductive FgRef where
  | num (i : Int)
  | arr (l : List FgElem)
  | obj (sprite : Option Int)
  deriving DecidableEq

/-- One entry of a chunk's `tiles` list. `ids` is the JSON `id` field already
wrapped into a list (`find_tile` wraps a scalar id into a singleton list). -/
structure TileEntry where
  ids : List String
  fg : Option FgRef
  bg : Option FgRef
  deriving DecidableEq

/-- One spritesheet chunk of the manifest's `tiles-new` list; every JSON key
the script reads is optional except `tiles`. -/
structure RawChunk where
  file : Option String
  nx : Option Nat
  ny : Option Nat
  sprite_width : Option Nat
  sprite_height : Option Nat
  sprite_offset_x : Option Int
  sprite_offset_y : Option Int
  tiles : List TileEntry
  deriving DecidableEq

/-- Parsed manifest: the fields `TileDataLoader.__init__` reads from the
tileset JSON (`tile_info[0]` and `tiles-new`). -/
structure Manifest where
  tile_width : Nat
  tile_height : Nat
  pixelscale : Nat
  chunks : List RawChunk
  deriving DecidableEq

/-- The `fg`/`bg` normalization performed inside `find_tile` (lines 243-256):
a list keeps its first element (or `None` when empty), an object keeps its
`sprite` field, a scalar stays as is, absence stays absent. -/
def normalize_ref : Option FgRef → Option Int
  | none => none
  | some (.num i) => some i
  | some (.arr []) => none
  | some (.arr (.num i :: _)) => some i
  | some (.arr (.obj s :: _)) => s
  | some (.obj s) => s

/-- `_get_chunk_dimensions` (lines 160-186): explicit `nx`/`ny` win; a chunk
without a file, or whose file is missing, falls back to a 1x1 placeholder;
otherwise the decoded image's pixel size is divided by the sprite size. -/
def get_chunk_dimensions (m : Manifest) (fs : FileDims) (c : RawChunk) : Nat × Nat :=
  match c.nx, c.ny with
  | some a, some b => (a, b)
  | _, _ =>
    match c.file with
    | none => (1, 1)
    | some f =>
      match fs f with
      | none => (1, 1)
      | some d => (d.1 / (c.sprite_width.getD m.tile_width), d.2 / (c.sprite_height.getD m.tile_height))

/-- One entry of the range list built at the top of `find_tile` (lines
190-202): the chunk occupies the half-open global tile-index interval
`[lo, hi)` (the Python dict keys `from` and `to`). -/
structure TRange where
  lo : Int
  hi : Int
  chunk : RawChunk
  nx : Nat
  ny : Nat
  deriving DecidableEq

/-- The range-construction loop at the top of `find_tile` (lines 190-202),
started at a running offset. -/
def build_ranges (m : Manifest) (fs : FileDims) : List RawChunk → Int → List TRange
  | [], _ => []
  | c :: rest, off =>
    let d := get_chunk_dimensions m fs c
    ⟨off, off + (d.1 * d.2 : Nat), c, d.1, d.2⟩ :: build_ranges m fs rest (off + (d.1 * d.2 : Nat))

/-- The range table a single `find_tile` call constructs (offset starts at 0). -/
def ranges_of (m : Manifest) (fs : FileDims) : List TRange :=
  build_ranges m fs m.chunks 0

/-- `find_range` (lines 204-208): first range whose interval contains the id. -/
def find_range (ranges : List TRange) (tid : Int) : Option TRange :=
  ranges.find? (fun r => decide (r.lo ≤ tid ∧ tid < r.hi))

/-- `tile_info_for_id` (lines 210-233). On a file-less chunk the Python read
`chunk['file']` raises `KeyError`, modelled as `.error ()`; an id outside
every range is "not found" (`.ok none`). -/
def tile_info_for_id (m : Manifest) (ranges : List TRange) (tid : Option Int) :
    Except Unit (Option TilePosition) :=
  match tid with
  | none => .ok none
  | some t =>
    match find_range ranges t with
    | none => .ok none
    | some r =>
      match r.chunk.file with
      | none => .error ()
      | some f =>
        let off := t - r.lo
        .ok (some ⟨f, off % (r.nx : Int), off / (r.nx : Int),
          r.chunk.sprite_width.getD m.tile_width,
          r.chunk.sprite_height.getD m.tile_height,
          r.chunk.sprite_offset_x.getD 0, r.chunk.sprite_offset_y.getD 0⟩)

/-- The entry-search loop of `find_tile` (lines 236-242): chunks are scanned in
manifest order, entries in list order, first match wins. -/
def find_entry (chunks : List RawChunk) (item_id : String) : Option TileEntry :=
  chunks.findSome? (fun c => c.tiles.find? (fun e => e.ids.contains item_id))

/-- `find_tile` (lines 188-263): builds the range table, locates the first
entry containing the id, and converts the normalized `fg`/`bg` references to
tile positions (Python evaluates the `fg` argument before `bg`; an exception
in either aborts the call). -/
def find_tile (m : Manifest) (fs : FileDims) (item_id : String) :
    Except Unit (Option TileInfo) :=
  let ranges := ranges_of m fs
  match find_entry m.chunks item_id with
  | none => .ok none
  | some e =>
    match tile_info_for_id m ranges (normalize_ref e.fg) with
    | .error u => .error u
    | .ok fg =>
      match tile_info_for_id m ranges (normalize_ref e.bg) with
      | .error u => .error u
      | .ok bg => .ok (some ⟨fg, bg⟩)

/-- The crop rectangle computed by `get_tile_image` (lines 278-287): the raw
products, with no clamping. -/
def crop_rect (p : TilePosition) : Int × Int × Int × Int :=
  (p.tx * (p.width : Int), p.ty * (p.height : Int),
   p.tx * (p.width : Int) + (p.width : Int), p.ty * (p.height : Int) + (p.height : Int))

/-- One `find_tile` call together with the range table it constructed: lines
190-202 run unconditionally at the top of every call, so each call builds one
fresh table. -/
def find_tile_built_table (m : Manifest) (fs : FileDims) (item_id : String) :
    List TRange × Except Unit (Option TileInfo) :=
  (ranges_of m fs, find_tile m fs item_id)

/-- The range tables constructed during a sequence of `find_tile` calls on one
loader: one table per call. -/
def range_tables_built (m : Manifest) (fs : FileDims) (ids : List String) :
    List (List TRange) :=
  ids.map (fun i => (find_tile_built_table m fs i).1)

/-! Configuration constants of the script (values used by the claims). -/

def SPRITE_BORDER_WIDTH : Nat := 1

def LETTER_SPACING : Nat := 1

def LETTER_THICKNESS_HORIZONTAL : Int := 0

def LETTER_THICKNESS_VERTICAL : Int := 0

def RANDOM_ROTATION_MAX : Rat := 15

def RANDOM_OFFSET_X : Rat := 4

def RANDOM_OFFSET_Y : Rat := 2

/-- The weighted item catalog `ITEMS`. -/
def ITEMS : List (String × Nat) :=
  [("mon_zombie_gasbag_fungus", 1), ("mon_creeper_hub", 1), ("mon_zombie_gasbag", 2),
   ("mon_fungaloid", 1), ("mon_human_snail", 0), ("mon_molebot", 0), ("mon_gator", 2),
   ("mon_zombie_grappler", 2), ("mon_zombie", 10), ("mon_zombie_fat", 8),
   ("mon_zombie_tough", 8), ("mon_zombie_runner", 5), ("mon_zombie_acidic", 3),
   ("mon_zombie_ears", 3), ("mon_zombie_soldier", 5), ("mon_zombie_spitter", 3),
   ("mon_zombie_prisoner", 2), ("mon_zombie_survivor", 2), ("mon_zombie_soldier_acid_1", 2),
   ("mon_zombie_soldier_acid_2", 2), ("mon_skeleton_brute", 1),
   ("jar_3l_glass", 1), ("bio_ads", 1), ("heavy_plus_battery_cell", 0), ("tuba", 0),
   ("american_180", 0), ("voltmeter", 0), ("towel", 2), ("helmet_motor", 0), ("guidebook", 1)]

/-- The terrain catalog `TERRAINS` (with its duplicate `t_moss`). -/
def TERRAINS : List String :=
  ["t_sidewalk", "t_concrete", "t_sidewalk_bg_dp", "t_clay", "t_railroad_rubble",
   "t_rock_green", "t_grass_long", "t_moss", "t_moss", "t_dirtfloor_no_roof",
   "t_grass", "t_floor_resin"]

/-- The 7-row-by-5-column glyph table `LETTERS` (dict insertion order kept). -/
def LETTERS : List (Char × List (List Char)) :=
  [('D', ["XXXX ", "X   X", "X   X", "X   X", "X   X", "X   X", "XXXX "].map String.toList),
   ('O', [" XXX ", "X   X", "X   X", "X   X", "X   X", "X   X", " XXX "].map String.toList),
   ('N', ["X   X", "XX  X", "XX  X", "X X X", "X  XX", "X  XX", "X   X"].map String.toList),
   ('T', ["XXXXX", "  X  ", "  X  ", "  X  ", "  X  ", "  X  ", "  X  "].map String.toList),
   ('P', ["XXXX ", "X   X", "X   X", "XXXX ", "X    ", "X    ", "X    "].map String.toList),
   ('A', [" XXX ", "X   X", "X   X", "XXXXX", "X   X", "X   X", "X   X"].map String.toList),
   ('I', ["XXXXX", "  X  ", "  X  ", "  X  ", "  X  ", "  X  ", "XXXXX"].map String.toList),
   ('C', [" XXX ", "X   X", "X    ", "X    ", "X    ", "X   X", " XXX "].map String.toList),
   (Char.ofNat 39, ["X    ", " X   ", " X   ", "     ", "     ", "     ", "     "].map String.toList),
   (' ', ["     ", "     ", "     ", "     ", "     ", "     ", "     "].map String.toList)]

/-! `expand_pattern` (lines 312-344), split into its three stages. -/

/-- Python slice `expanded[0 :: k]`: the rows at indices `0, k, 2k, ...`,
written with a running index starting at `i`. -/
def take_every_aux (k : Nat) : List (List Char) → Nat → List (List Char)
  | [], _ => []
  | x :: rest, i => (if i % k = 0 then [x] else []) ++ take_every_aux k rest (i + 1)

/-- Python slice `expanded[0 :: k]`. -/
def take_every (k : Nat) (l : List (List Char)) : List (List Char) :=
  take_every_aux k l 0

/-- The vertical-expansion loop (lines 318-323): each row, followed by
`v_expand` extra copies when `v_expand > 0`. -/
def expand_vert (v : Int) : List (List Char) → List (List Char)
  | [] => []
  | r :: rest => (r :: (if 0 < v then List.replicate v.toNat r else [])) ++ expand_vert v rest

/-- The negative-vertical row removal (lines 325-328): keep every
`(step + 1)`-th row, `step = max 1 (floor (1 / (1 + abs v)))`. -/
def thin_vert (v : Int) (rows : List (List Char)) : List (List Char) :=
  if v < 0 then take_every (max 1 (1 / (1 + v.natAbs)) + 1) rows
  else rows

/-- The per-row horizontal pass (lines 333-340): `char * (1 + h_expand)` when
`h_expand > 0`, otherwise each character is appended once. -/
def expand_row (h : Int) : List Char → List Char
  | [] => []
  | c :: rest => (if 0 < h then c :: List.replicate h.toNat c else [c]) ++ expand_row h rest

/-- The horizontal-expansion stage (lines 331-342): applied only when
`h_expand` is nonzero. -/
def expand_horiz (h : Int) (rows : List (List Char)) : List (List Char) :=
  if h ≠ 0 then rows.map (expand_row h) else rows

/-- `expand_pattern` (lines 312-344). -/
def expand_pattern (pattern : List (List Char)) (h_expand v_expand : Int) : List (List Char) :=
  if h_expand = 0 ∧ v_expand = 0 then pattern
  else expand_horiz h_expand (thin_vert v_expand (expand_vert v_expand pattern))

/-! `build_grid` (lines 347-385). -/

/-- Abstract model of the `random`-module draws `build_grid` makes: a pure
generator over a state type, threaded explicitly. A fixed seed fixes the
initial state, so every draw is a function of the seed and draw position. -/
structure RNG (σ : Type) where
  choices : List String → List Nat → σ → String × σ
  choiceStr : List String → σ → String × σ
  choiceBool : σ → Bool × σ
  uniform : Rat → Rat → σ → Rat × σ
  random : σ → Rat × σ

/-- `pick_item` (lines 294-309): a weighted draw over the `ITEMS` catalog (the
module-level `_PICK_CACHE` only memoizes the two lists computed from `ITEMS`
and is semantically transparent). -/
def pick_item {σ : Type} (rng : RNG σ) (s : σ) : String × σ :=
  rng.choices (ITEMS.map Prod.fst) (ITEMS.map Prod.snd) s

/-- One `CellData` construction (lines 369-376), with the six draws in the
Python argument-evaluation order. -/
def draw_cell {σ : Type} (rng : RNG σ) (s : σ) : CellData × σ :=
  let item := pick_item rng s
  let terr := rng.choiceStr TERRAINS item.2
  let rot := rng.uniform 0 RANDOM_ROTATION_MAX terr.2
  let fl := rng.choiceBool rot.2
  let ox := rng.random fl.2
  let oy := rng.random ox.2
  (⟨item.1, terr.1, rot.1, fl.1, (ox.1 - 1/2) * RANDOM_OFFSET_X, (oy.1 - 1/2) * RANDOM_OFFSET_Y⟩, oy.2)

/-- The inner `for c in row_pattern` loop (lines 367-378): an ink character
allocates a cell, a space appends a blank. -/
def fill_row {σ : Type} (rng : RNG σ) : List Char → σ → List (Option CellData) × σ
  | [], s => ([], s)
  | c :: rest, s =>
    if c ≠ ' ' then
      let d := draw_cell rng s
      let t := fill_row rng rest d.2
      (some d.1 :: t.1, t.2)
    else
      let t := fill_row rng rest s
      (none :: t.1, t.2)

/-- The `for r in range(rows)` loop for one character (lines 364-383): each
grid row is extended with that character's pattern row (`'     '` when the
pattern is shorter) plus `LETTER_SPACING` blanks when more characters follow. -/
def append_rows {σ : Type} (rng : RNG σ) (spacing : Nat) (add_spacing : Bool) :
    List (List (Option CellData)) → List (List Char) → σ → List (List (Option CellData)) × σ
  | [], _, s => ([], s)
  | row :: rest, pat, s =>
    let cells := fill_row rng (pat.headD (List.replicate 5 ' ')) s
    let spacer : List (Option CellData) := if add_spacing then List.replicate spacing none else []
    let tail := append_rows rng spacing add_spacing rest pat.tail cells.2
    ((row ++ cells.1 ++ spacer) :: tail.1, tail.2)

/-- `adjusted_letters` (lines 350-356): every glyph pattern run through
`expand_pattern` with the configured thicknesses. -/
def adjusted_letters (h_expand v_expand : Int) : List (Char × List (List Char)) :=
  LETTERS.map (fun p => (p.1, expand_pattern p.2 h_expand v_expand))

/-- `adjusted_letters.get(char, adjusted_letters[' '])` (line 362). -/
def lookup_letter (tbl : List (Char × List (List Char))) (c : Char) : List (List Char) :=
  match tbl.find? (fun p => p.1 == c) with
  | some p => p.2
  | none =>
    match tbl.find? (fun p => p.1 == ' ') with
    | some p => p.2
    | none => []

/-- The `for char_idx, char in enumerate(text)` loop (lines 361-383). -/
def build_grid_aux {σ : Type} (rng : RNG σ) (spacing : Nat)
    (adjusted : List (Char × List (List Char))) (total : Nat) :
    List Char → Nat → List (List (Option CellData)) → σ → List (List (Option CellData)) × σ
  | [], _, grid, s => (grid, s)
  | ch :: rest, idx, grid, s =>
    let pattern := lookup_letter adjusted ch
    let g := append_rows rng spacing (decide (idx < total - 1)) grid pattern s
    build_grid_aux rng spacing adjusted total rest (idx + 1) g.1 g.2

/-- `build_grid` (lines 347-385), parameterized over the thickness and spacing
configuration constants (the script sets them to 0, 0 and 1). -/
def build_grid {σ : Type} (rng : RNG σ) (h_expand v_expand : Int) (spacing : Nat)
    (text : List Char) (s : σ) : List (List (Option CellData)) × σ :=
  let adjusted := adjusted_letters h_expand v_expand
  let rows := (adjusted.map (fun p => p.2.length)).foldl max 0
  build_grid_aux rng spacing adjusted text.length text 0 (List.replicate rows []) s

/-- The column count one character contributes to every grid row: the length
of the first row of its thickness-adjusted pattern. -/
def glyph_width (h_expand v_expand : Int) (c : Char) : Nat :=
  ((lookup_letter (adjusted_letters h_expand v_expand) c).headD (List.replicate 5 ' ')).length

/-- Sum of the per-character column counts plus the spacer columns between
consecutive characters (never after the final one). -/
def grid_width (h_expand v_expand : Int) (spacing : Nat) (text : List Char) : Nat :=
  (text.map (glyph_width h_expand v_expand)).sum + (text.length - 1) * spacing

/-- The sequence of populated cell descriptors of a grid, in row-major order. -/
def cell_sequence (g : List (List (Option CellData))) : List CellData :=
  (g.map (fun row => row.filterMap id)).flatten

/-! The per-cell layer assembly of `render_dont_panic` (lines 429-489). -/

/-- One composited layer of a cell's square. -/
inductive Layer where
  | fill
  | terrain (p : TilePosition)
  | item (p : TilePosition)
  | border
  deriving DecidableEq

/-- The layers `render_dont_panic` draws for one populated cell (lines
429-489): the whole block is guarded by `if tile_info and tile_info.fg`, and
inside it the solid fill, the terrain sprite (when its id resolves with a
foreground), the item sprite and the border are drawn in order. -/
def cell_layers (m : Manifest) (fs : FileDims) (item_id terrain_id : String) :
    Except Unit (List Layer) :=
  match find_tile m fs item_id with
  | .error u => .error u
  | .ok none => .ok []
  | .ok (some info) =>
    match info.fg with
    | none => .ok []
    | some fg_pos =>
      match find_tile m fs terrain_id with
      | .error u => .error u
      | .ok te =>
        let terrain_layer : List Layer :=
          match te with
          | some ti =>
            match ti.fg with
            | some tp => [Layer.terrain tp]
            | none => []
          | none => []
        .ok ([Layer.fill] ++ terrain_layer ++ [Layer.item fg_pos] ++
          (if 0 < SPRITE_BORDER_WIDTH then [Layer.border] else []))

/-! Concrete manifests used by the witnesses and examples. -/

/-- Filesystem with no decodable image files. -/
def fs_none : FileDims := fun _ => none

/-- A 4x4 chunk mapping `mon_zombie` to foreground index 5 and `t_grass` to
foreground index 0. -/
def chunk4x4 : RawChunk :=
  ⟨some "tiles.png", some 4, some 4, none, none, none, none,
   [⟨["mon_zombie"], some (.num 5), none⟩, ⟨["t_grass"], some (.num 0), none⟩]⟩

/-- A manifest with a single 4x4 chunk (16 tiles). -/
def manifest4x4 : Manifest := ⟨32, 32, 1, [chunk4x4]⟩

/-- A file-less chunk with no explicit dimensions: a 1x1 placeholder. -/
def chunk_fileless : RawChunk := ⟨none, none, none, none, none, none, none, []⟩

/-- A 2x2 chunk whose entry `x` points at foreground index 0, which lies in
the placeholder chunk's range. -/
def chunk_after : RawChunk :=
  ⟨some "a.png", some 2, some 2, none, none, none, none, [⟨["x"], some (.num 0), none⟩]⟩

/-- A manifest whose first chunk is a file-less 1x1 placeholder. -/
def manifest_fileless : Manifest := ⟨32, 32, 1, [chunk_fileless, chunk_after]⟩

/-- Two chunks of 6 and 4 tiles, for the range-partition witness. -/
def manifest_two : Manifest :=
  ⟨32, 32, 1,
   [⟨some "a.png", some 2, some 3, none, none, none, none, []⟩,
    ⟨some "b.png", some 1, some 4, none, none, none, none, []⟩]⟩

/-- The position `find_tile` resolves for `mon_zombie` in `manifest4x4`. -/
def pos_zombie : TilePosition := ⟨"tiles.png", 1, 1, 32, 32, 0, 0⟩

/-- The tile info `find_tile` returns for `mon_zombie` in `manifest4x4`. -/
def info_zombie : TileInfo := ⟨some pos_zombie, none⟩

/-- The position `find_tile` resolves for `t_grass` in `manifest4x4`. -/
def pos_grass : TilePosition := ⟨"tiles.png", 0, 0, 32, 32, 0, 0⟩

/-- Decidable equality for `Except`, so that concrete runs of the fallible
operations can be checked by evaluation. -/
instance {ε α : Type} [DecidableEq ε] [DecidableEq α] : DecidableEq (Except ε α) := fun x y =>
  match x, y with
  | .error a, .error b =>
    if h : a = b then isTrue (by rw [h]) else isFalse (fun he => by cases he; exact h rfl)
  | .ok a, .ok b =>
    if h : a = b then isTrue (by rw [h]) else isFalse (fun he => by cases he; exact h rfl)
  | .error _, .ok _ => isFalse (fun he => Except.noConfusion he)
  | .ok _, .error _ => isFalse (fun he => Except.noConfusion he)

/-- Cumulative sums: `psum l n` is the sum of the first `n` entries of `l`. -/
def psum : List Nat → Nat → Nat
  | _, 0 => 0
  | [], _ + 1 => 0
  | s :: rest, n + 1 => s + psum rest n

/-- The tile counts of a list of chunks, in order. -/
def sizes_of (m : Manifest) (fs : FileDims) (chunks : List RawChunk) : List Nat :=
  chunks.map (fun c => (get_chunk_dimensions m fs c).1 * (get_chunk_dimensions m fs c).2)

/-- The tile counts of a manifest's chunks, in manifest order. -/
def chunk_sizes (m : Manifest) (fs : FileDims) : List Nat :=
  sizes_of m fs m.chunks

/-- A concrete deterministic generator over the trivial state, used by the
witnesses to instantiate the generator-polymorphic theorems. -/
def unit_rng : RNG Unit :=
  ⟨fun ids _ s => (ids.headD "", s), fun l s => (l.headD "", s),
   fun s => (true, s), fun a _ s => (a, s), fun s => (0, s)⟩

/-- The factor by which the horizontal stage multiplies every row's length. -/
def h_mult (h_expand : Int) : Nat :=
  if 0 < h_expand then 1 + h_expand.toNat else 1

/-- The common row count of every thickness-adjusted glyph pattern: all base
patterns have exactly 7 rows, and `expand_pattern` maps equal row counts to
equal row counts. -/
def L_rows (h_expand v_expand : Int) : Nat :=
  (expand_pattern (List.replicate 7 (List.replicate 5 ' ')) h_expand v_expand).length

/-! ### Lemmas about `expand_pattern` -/

theorem expand_row_len (h : Int) (row : List Char) :
    (expand_row h row).length = row.length * h_mult h := by
  induction row with
  | nil => simp [expand_row]
  | cons c rest ih =>
    by_cases hp : 0 < h <;> simp [expand_row, hp, ih, h_mult] <;> ring

theorem expand_vert_of_nonpos (v : Int) (hv : ¬ 0 < v) (p : List (List Char)) :
    expand_vert v p = p := by
  induction p with
  | nil => rfl
  | cons r rest ih => simp [expand_vert, hv, ih]

theorem expand_vert_pos (v : Int) (hv : 0 < v) (p : List (List Char)) :
    expand_vert v p = (p.map (fun row => row :: List.replicate v.toNat row)).flatten := by
  induction p with
  | nil => rfl
  | cons r rest ih => simp [expand_vert, hv, ih]

theorem expand_vert_mem {v : Int} {p : List (List Char)} {r : List Char}
    (hr : r ∈ expand_vert v p) : r ∈ p := by
  induction p with
  | nil => simpa [expand_vert] using hr
  | cons x rest ih =>
    rw [expand_vert] at hr
    rcases List.mem_append.mp hr with h | h
    · rcases List.mem_cons.mp h with h1 | h1
      · exact h1 ▸ List.mem_cons_self x rest
      · split at h1
        · exact (List.eq_of_mem_replicate h1) ▸ List.mem_cons_self x rest
        · exact absurd h1 (List.not_mem_nil r)
    · exact List.mem_cons_of_mem x (ih h)

theorem expand_vert_len (v : Int) (p : List (List Char)) :
    (expand_vert v p).length = p.length * (1 + if 0 < v then v.toNat else 0) := by
  induction p with
  | nil => simp [expand_vert]
  | cons r rest ih =>
    by_cases hv : 0 < v <;> simp [expand_vert, hv, ih] <;> ring

theorem take_every_aux_mem {k : Nat} :
    ∀ {l : List (List Char)} {i : Nat} {x : List Char}, x ∈ take_every_aux k l i → x ∈ l := by
  intro l
  induction l with
  | nil => intro i x hx; simpa [take_every_aux] using hx
  | cons y rest ih =>
    intro i x hx
    rw [take_every_aux] at hx
    rcases List.mem_append.mp hx with h | h
    · split at h
      · exact (List.mem_singleton.mp h) ▸ List.mem_cons_self y rest
      · exact absurd h (List.not_mem_nil x)
    · exact List.mem_cons_of_mem y (ih h)

theorem take_every_aux_len_congr {k : Nat} :
    ∀ {l l2 : List (List Char)} (i : Nat), l.length = l2.length →
      (take_every_aux k l i).length = (take_every_aux k l2 i).length := by
  intro l
  induction l with
  | nil =>
    intro l2 i h
    cases l2 with
    | nil => rfl
    | cons z rest2 => simp at h
  | cons y rest ih =>
    intro l2 i h
    cases l2 with
    | nil => simp at h
    | cons z rest2 =>
      rw [take_every_aux, take_every_aux]
      have h2 : rest.length = rest2.length := by simpa using h
      by_cases hc : i % k = 0 <;> simp [hc, ih (i + 1) h2]

theorem take_every_aux_ne_nil {k : Nat} (x : List Char) (rest : List (List Char)) :
    take_every_aux k (x :: rest) 0 ≠ [] := by
  simp [take_every_aux, Nat.zero_mod]

theorem thin_vert_mem {v : Int} {p : List (List Char)} {r : List Char}
    (hr : r ∈ thin_vert v p) : r ∈ p := by
  rw [thin_vert] at hr
  split at hr
  · exact take_every_aux_mem hr
  · exact hr

theorem thin_vert_len_congr {v : Int} {p q : List (List Char)} (h : p.length = q.length) :
    (thin_vert v p).length = (thin_vert v q).length := by
  rw [thin_vert, thin_vert]
  split
  · exact take_every_aux_len_congr 0 h
  · exact h

theorem thin_vert_ne_nil {v : Int} {p : List (List Char)} (hp : p ≠ []) :
    thin_vert v p ≠ [] := by
  rw [thin_vert]
  split
  · cases p with
    | nil => exact absurd rfl hp
    | cons x rest => exact take_every_aux_ne_nil x rest
  · exact hp

theorem expand_horiz_len (h : Int) (p : List (List Char)) :
    (expand_horiz h p).length = p.length := by
  rw [expand_horiz]
  split <;> simp

theorem expand_row_of_neg (h : Int) (hh : h < 0) (row : List Char) :
    expand_row h row = row := by
  induction row with
  | nil => rfl
  | cons c rest ih =>
    have hp : ¬ 0 < h := by omega
    simp [expand_row, hp, ih]

theorem expand_row_pos (h : Int) (hh : 0 < h) (row : List Char) :
    expand_row h row = (row.map (fun c => c :: List.replicate h.toNat c)).flatten := by
  induction row with
  | nil => rfl
  | cons c rest ih => simp [expand_row, hh, ih]

theorem expand_pattern_row_width {w : Nat} {p : List (List Char)} (h v : Int)
    (hw : ∀ row ∈ p, row.length = w) :
    ∀ row ∈ expand_pattern p h v, row.length = w * h_mult h := by
  intro row hrow
  rw [expand_pattern] at hrow
  split at hrow
  · rename_i hc
    rw [hc.1]
    simpa [h_mult] using hw row hrow
  · rw [expand_horiz] at hrow
    split at hrow
    · rw [List.mem_map] at hrow
      obtain ⟨r0, hr0, rfl⟩ := hrow
      rw [expand_row_len, hw r0 (expand_vert_mem (thin_vert_mem hr0))]
    · rename_i hne
      have h0 : h = 0 := by omega
      rw [h0]
      simpa [h_mult] using hw row (expand_vert_mem (thin_vert_mem hrow))

theorem expand_pattern_len_congr {p q : List (List Char)} (h v : Int)
    (hpq : p.length = q.length) :
    (expand_pattern p h v).length = (expand_pattern q h v).length := by
  rw [expand_pattern, expand_pattern]
  split
  · exact hpq
  · rw [expand_horiz_len, expand_horiz_len]
    exact thin_vert_len_congr (by rw [expand_vert_len, expand_vert_len, hpq])

theorem expand_pattern_ne_nil {p : List (List Char)} (h v : Int) (hp : p ≠ []) :
    expand_pattern p h v ≠ [] := by
  rw [expand_pattern]
  split
  · exact hp
  · have h1 : expand_vert v p ≠ [] := by
      cases p with
      | nil => exact absurd rfl hp
      | cons x rest => by_cases hv : 0 < v <;> simp [expand_vert, hv]
    have h2 : thin_vert v (expand_vert v p) ≠ [] := thin_vert_ne_nil h1
    rw [expand_horiz]
    split
    · simpa using h2
    · exact h2

/-- C6: a positive vertical thickness appends that many extra copies of each
row; a positive horizontal thickness repeats each column character
`1 + h` times; a negative vertical thickness keeps only every
`(step + 1)`-th row, where `step = max 1 (floor (1 / (1 + abs v)))` is the
stride formula of line 327 (so `step` rows are skipped between kept rows);
a negative horizontal thickness is a no-op on the horizontal stage. -/
theorem expand_pattern_thickness (pattern : List (List Char)) (h_expand v_expand : Int) :
    (0 < v_expand → expand_pattern pattern 0 v_expand =
      (pattern.map (fun row => row :: List.replicate v_expand.toNat row)).flatten) ∧
    (0 < h_expand → expand_pattern pattern h_expand 0 =
      pattern.map (fun row => (row.map (fun c => c :: List.replicate h_expand.toNat c)).flatten)) ∧
    (v_expand < 0 → expand_pattern pattern 0 v_expand =
      take_every (max 1 (1 / (1 + v_expand.natAbs)) + 1) pattern) ∧
    (h_expand < 0 → expand_pattern pattern h_expand v_expand =
      expand_pattern pattern 0 v_expand) := by
  refine ⟨?_, ?_, ?_, ?_⟩
  · intro hv
    rw [expand_pattern, if_neg (by omega), expand_horiz, if_neg (by simp),
      thin_vert, if_neg (by omega), expand_vert_pos v_expand hv]
  · intro hh
    rw [expand_pattern, if_neg (by omega), expand_horiz, if_pos (by omega),
      thin_vert, if_neg (by omega), expand_vert_of_nonpos 0 (by omega)]
    exact List.map_congr_left (fun row _ => expand_row_pos h_expand hh row)
  · intro hv
    rw [expand_pattern, if_neg (by omega), expand_horiz, if_neg (by simp),
      thin_vert, if_pos hv, expand_vert_of_nonpos v_expand (by omega), take_every]
  · intro hh
    by_cases hv : v_expand = 0
    · rw [hv, expand_pattern, if_neg (by omega), expand_pattern, if_pos ⟨rfl, rfl⟩,
        expand_vert_of_nonpos 0 (by omega), thin_vert, if_neg (by omega),
        expand_horiz, if_pos (by omega),
        List.map_congr_left (fun row _ => expand_row_of_neg h_expand hh row)]
      simp
    · rw [expand_pattern, if_neg (by omega), expand_pattern, if_neg (by simp [hv]),
        expand_horiz, if_pos (by omega), expand_horiz, if_neg (by simp),
        List.map_congr_left (fun row _ => expand_row_of_neg h_expand hh row)]
      simp

/-- Witness for `expand_pattern_thickness` at concrete patterns and
thickness values. -/
theorem expand_pattern_thickness_witness :
    (expand_pattern [['X', ' ']] 0 3 =
      (([['X', ' ']].map (fun row => row :: List.replicate (3 : Int).toNat row)).flatten)) ∧
    (expand_pattern [['X', ' ']] 2 0 =
      [['X', ' ']].map (fun row => (row.map (fun c => c :: List.replicate (2 : Int).toNat c)).flatten)) ∧
    (expand_pattern [['X'], [' '], ['X']] 0 (-2) =
      take_every (max 1 (1 / (1 + (-2 : Int).natAbs)) + 1) [['X'], [' '], ['X']]) ∧
    (expand_pattern [['X', ' ']] (-1) 1 = expand_pattern [['X', ' ']] 0 1) :=
  ⟨(expand_pattern_thickness [['X', ' ']] 0 3).1 (by decide),
   (expand_pattern_thickness [['X', ' ']] 2 0).2.1 (by decide),
   (expand_pattern_thickness [['X'], [' '], ['X']] 0 (-2)).2.2.1 (by decide),
   (expand_pattern_thickness [['X', ' ']] (-1) 1).2.2.2 (by decide)⟩

/-! ### Lemmas about the glyph table and `build_grid` -/

theorem letters_shape : ∀ p ∈ LETTERS, p.2.length = 7 ∧ ∀ row ∈ p.2, row.length = 5 := by
  decide

theorem adjusted_pattern_len (h v : Int) : ∀ q ∈ LETTERS,
    (expand_pattern q.2 h v).length = L_rows h v := by
  intro q hq
  rw [L_rows]
  exact expand_pattern_len_congr h v (by rw [(letters_shape q hq).1, List.length_replicate])

theorem L_rows_pos (h v : Int) : 1 ≤ L_rows h v := by
  rw [L_rows]
  exact Nat.succ_le_of_lt (List.length_pos.mpr (expand_pattern_ne_nil h v (by simp)))

theorem lookup_letter_eq_some {tbl : List (Char × List (List Char))} {c : Char} {pr}
    (hf : tbl.find? (fun p => p.1 == c) = some pr) : lookup_letter tbl c = pr.2 := by
  simp only [lookup_letter, hf]

theorem lookup_letter_eq_space {tbl : List (Char × List (List Char))} {c : Char} {pr}
    (hf : tbl.find? (fun p => p.1 == c) = none)
    (hf2 : tbl.find? (fun p => p.1 == ' ') = some pr) : lookup_letter tbl c = pr.2 := by
  simp only [lookup_letter, hf, hf2]

theorem lookup_letter_adj (h v : Int) (c : Char) :
    ∃ q ∈ LETTERS, lookup_letter (adjusted_letters h v) c = expand_pattern q.2 h v := by
  cases hf : (adjusted_letters h v).find? (fun p => p.1 == c) with
  | some pr =>
    have hm := List.mem_of_find?_eq_some hf
    rw [adjusted_letters, List.mem_map] at hm
    obtain ⟨q, hq, hq2⟩ := hm
    exact ⟨q, hq, by rw [lookup_letter_eq_some hf, ← hq2]⟩
  | none =>
    cases hf2 : (adjusted_letters h v).find? (fun p => p.1 == ' ') with
    | some pr =>
      have hm := List.mem_of_find?_eq_some hf2
      rw [adjusted_letters, List.mem_map] at hm
      obtain ⟨q, hq, hq2⟩ := hm
      exact ⟨q, hq, by rw [lookup_letter_eq_space hf hf2, ← hq2]⟩
    | none =>
      exfalso
      have hsp : (' ', List.replicate 7 (List.replicate 5 ' ')) ∈ LETTERS := by decide
      have hmem : ((' ' : Char), expand_pattern (List.replicate 7 (List.replicate 5 ' ')) h v) ∈
          adjusted_letters h v := by
        rw [adjusted_letters, List.mem_map]
        exact ⟨_, hsp, rfl⟩
      have := List.find?_eq_none.mp hf2 _ hmem
      simp at this

theorem lookup_letter_len (h v : Int) (c : Char) :
    (lookup_letter (adjusted_letters h v) c).length = L_rows h v := by
  obtain ⟨q, hq, heq⟩ := lookup_letter_adj h v c
  rw [heq]
  exact adjusted_pattern_len h v q hq

theorem lookup_letter_width (h v : Int) (c : Char) :
    ∀ row ∈ lookup_letter (adjusted_letters h v) c, row.length = 5 * h_mult h := by
  obtain ⟨q, hq, heq⟩ := lookup_letter_adj h v c
  rw [heq]
  exact expand_pattern_row_width h v (letters_shape q hq).2

theorem glyph_width_eq (h v : Int) (c : Char) : glyph_width h v c = 5 * h_mult h := by
  rw [glyph_width]
  have hlen := lookup_letter_len h v c
  have hpos := L_rows_pos h v
  cases hl : lookup_letter (adjusted_letters h v) c with
  | nil =>
    rw [hl] at hlen
    simp at hlen
    omega
  | cons r t =>
    have hr : r ∈ lookup_letter (adjusted_letters h v) c := by
      rw [hl]
      exact List.mem_cons_self r t
    rw [List.headD_cons]
    exact lookup_letter_width h v c r hr

theorem fill_row_len {σ : Type} (rng : RNG σ) (rp : List Char) (s : σ) :
    ((fill_row rng rp s).1).length = rp.length := by
  induction rp generalizing s with
  | nil => rfl
  | cons c rest ih =>
    rw [fill_row]
    split <;> simp [ih]

theorem append_rows_spec {σ : Type} (rng : RNG σ) (spacing : Nat) (asp : Bool) (wc : Nat) :
    ∀ (grid : List (List (Option CellData))) (pat : List (List Char)) (s : σ) (w0 : Nat),
      grid.length = pat.length →
      (∀ rp ∈ pat, rp.length = wc) →
      (∀ row ∈ grid, row.length = w0) →
      (append_rows rng spacing asp grid pat s).1.length = grid.length ∧
      ∀ row ∈ (append_rows rng spacing asp grid pat s).1,
        row.length = w0 + wc + (if asp then spacing else 0) := by
  intro grid
  induction grid with
  | nil =>
    intro pat s w0 _ _ _
    exact ⟨rfl, by intro row hrow; simp [append_rows] at hrow⟩
  | cons row rest ih =>
    intro pat s w0 hlen hpat hgrid
    cases pat with
    | nil => simp at hlen
    | cons rp pt =>
      have hrp : rp.length = wc := hpat rp (List.mem_cons_self rp pt)
      have hlen2 : rest.length = pt.length := by simpa using hlen
      have hpat2 : ∀ x ∈ pt, x.length = wc := fun x hx => hpat x (List.mem_cons_of_mem rp hx)
      have hgrid2 : ∀ x ∈ rest, x.length = w0 := fun x hx => hgrid x (List.mem_cons_of_mem row hx)
      obtain ⟨ihl, ihw⟩ := ih pt (fill_row rng rp s).2 w0 hlen2 hpat2 hgrid2
      simp only [append_rows, List.headD_cons, List.tail_cons]
      constructor
      · simp [ihl]
      · intro r hr
        rcases List.mem_cons.mp hr with h | h
        · subst h
          rw [List.length_append, List.length_append, fill_row_len,
            hgrid row (List.mem_cons_self row rest), hrp]
          cases asp <;> simp
        · exact ihw r h

theorem build_grid_aux_spec {σ : Type} (rng : RNG σ) (spacing : Nat) (h v : Int) :
    ∀ (txt : List Char) (idx total : Nat) (grid : List (List (Option CellData))) (s : σ) (w0 : Nat),
      total = idx + txt.length →
      grid.length = L_rows h v →
      (∀ row ∈ grid, row.length = w0) →
      (build_grid_aux rng spacing (adjusted_letters h v) total txt idx grid s).1.length = L_rows h v ∧
      ∀ row ∈ (build_grid_aux rng spacing (adjusted_letters h v) total txt idx grid s).1,
        row.length = w0 + txt.length * (5 * h_mult h) + (txt.length - 1) * spacing := by
  intro txt
  induction txt with
  | nil =>
    intro idx total grid s w0 htot hlen hw
    refine ⟨hlen, ?_⟩
    intro row hrow
    simpa using hw row hrow
  | cons ch rest ih =>
    intro idx total grid s w0 htot hlen hw
    simp only [build_grid_aux]
    obtain ⟨hal, haw⟩ := append_rows_spec rng spacing (decide (idx < total - 1)) (5 * h_mult h)
      grid (lookup_letter (adjusted_letters h v) ch) s w0
      (by rw [hlen, lookup_letter_len]) (lookup_letter_width h v ch) hw
    obtain ⟨ihl, ihw⟩ := ih (idx + 1) total
      (append_rows rng spacing (decide (idx < total - 1)) grid
        (lookup_letter (adjusted_letters h v) ch) s).1
      (append_rows rng spacing (decide (idx < total - 1)) grid
        (lookup_letter (adjusted_letters h v) ch) s).2
      (w0 + 5 * h_mult h + (if decide (idx < total - 1) then spacing else 0))
      (by simp at htot; omega) (by rw [hal, hlen]) haw
    refine ⟨ihl, ?_⟩
    intro row hrow
    rw [ihw row hrow]
    have hd : (if (decide (idx < total - 1) : Bool) then spacing else 0) =
        (if idx < total - 1 then spacing else 0) := by simp
    rw [hd]
    rcases rest with _ | ⟨c2, rest2⟩
    · have : ¬ idx < total - 1 := by simp at htot; omega
      simp [this]
    · have : idx < total - 1 := by simp at htot; omega
      simp only [this, if_pos, List.length_cons]
      have e1 : (rest2.length + 1 + 1 - 1) = rest2.length + 1 := by omega
      have e2 : (rest2.length + 1 - 1) = rest2.length := by omega
      rw [e1, e2]
      ring

theorem foldl_max_all_eq (a : Nat) : ∀ (l : List Nat), (∀ x ∈ l, x = a) → l.foldl max a = a := by
  intro l
  induction l with
  | nil => intro _; rfl
  | cons x t ih =>
    intro hall
    rw [List.foldl_cons, hall x (List.mem_cons_self x t), Nat.max_self]
    exact ih (fun y hy => hall y (List.mem_cons_of_mem x hy))

theorem rows_foldl_eq (h v : Int) :
    ((adjusted_letters h v).map (fun p => p.2.length)).foldl max 0 = L_rows h v := by
  have hall : ∀ x ∈ (adjusted_letters h v).map (fun p => p.2.length), x = L_rows h v := by
    intro x hx
    rw [List.mem_map] at hx
    obtain ⟨pr, hpr, rfl⟩ := hx
    rw [adjusted_letters, List.mem_map] at hpr
    obtain ⟨q, hq, rfl⟩ := hpr
    exact adjusted_pattern_len h v q hq
  cases hm : (adjusted_letters h v).map (fun p => p.2.length) with
  | nil => simp [adjusted_letters, LETTERS] at hm
  | cons x t =>
    rw [List.foldl_cons, hall x (by rw [hm]; exact List.mem_cons_self x t), Nat.zero_max]
    exact foldl_max_all_eq _ t (fun y hy => hall y (by rw [hm]; exact List.mem_cons_of_mem x hy))

theorem build_grid_shape {σ : Type} (rng : RNG σ) (h v : Int) (spacing : Nat)
    (text : List Char) (s : σ) :
    (build_grid rng h v spacing text s).1.length = L_rows h v ∧
    ∀ row ∈ (build_grid rng h v spacing text s).1,
      row.length = text.length * (5 * h_mult h) + (text.length - 1) * spacing := by
  have hbase := build_grid_aux_spec rng spacing h v text 0 text.length
    (List.replicate (((adjusted_letters h v).map (fun p => p.2.length)).foldl max 0) []) s 0
    (by omega) (by rw [List.length_replicate, rows_foldl_eq])
    (by intro row hrow; rw [List.eq_of_mem_replicate hrow]; rfl)
  rw [build_grid]
  refine ⟨hbase.1, ?_⟩
  intro row hrow
  have := hbase.2 row hrow
  omega

theorem sum_map_const {α : Type} (l : List α) (n : Nat) :
    (l.map (fun _ => n)).sum = l.length * n := by
  induction l with
  | nil => simp
  | cons x t ih =>
    rw [List.map_cons, List.sum_cons, ih, List.length_cons, Nat.succ_mul]
    omega

theorem grid_width_eq (h v : Int) (spacing : Nat) (text : List Char) :
    grid_width h v spacing text =
      text.length * (5 * h_mult h) + (text.length - 1) * spacing := by
  rw [grid_width, List.map_congr_left (fun c _ => glyph_width_eq h v c), sum_map_const]

/-- C7: every row of the built grid has width equal to the sum of the
characters' thickness-adjusted glyph column counts plus the spacer columns
between consecutive characters (never after the last one), independently of
the randomized per-cell attributes; in particular the phrase `DO` with zero
inter-letter spacing and the standard 7x5 glyph table yields a grid exactly
10 columns wide and 7 rows tall. -/
theorem build_grid_width (σ : Type) (rng : RNG σ) (h_expand v_expand : Int)
    (spacing : Nat) (text : List Char) (s : σ) :
    ((build_grid rng h_expand v_expand spacing text s).1.all
      (fun row => row.length == grid_width h_expand v_expand spacing text) = true) ∧
    (build_grid rng 0 0 0 "DO".toList s).1.length = 7 ∧
    ((build_grid rng 0 0 0 "DO".toList s).1.all (fun row => row.length == 10) = true) := by
  refine ⟨?_, ?_, ?_⟩
  · obtain ⟨-, hw⟩ := build_grid_shape rng h_expand v_expand spacing text s
    rw [List.all_eq_true]
    intro row hrow
    rw [beq_iff_eq, hw row hrow, grid_width_eq]
  · rw [(build_grid_shape rng 0 0 0 "DO".toList s).1]
    decide
  · obtain ⟨-, hw⟩ := build_grid_shape rng 0 0 0 "DO".toList s
    rw [List.all_eq_true]
    intro row hrow
    rw [beq_iff_eq, hw row hrow]
    decide

/-- C9: `build_grid` always returns a rectangular grid: every row has the same
number of entries (cells plus blanks) as the first row, for every input text
and every thickness/spacing configuration. -/
theorem build_grid_rectangular (σ : Type) (rng : RNG σ) (h_expand v_expand : Int)
    (spacing : Nat) (text : List Char) (s : σ) :
    (build_grid rng h_expand v_expand spacing text s).1.all
      (fun row => row.length ==
        ((build_grid rng h_expand v_expand spacing text s).1.headD []).length) = true := by
  obtain ⟨hlen, hw⟩ := build_grid_shape rng h_expand v_expand spacing text s
  rw [List.all_eq_true]
  intro row hrow
  rw [beq_iff_eq, hw row hrow]
  cases hg : (build_grid rng h_expand v_expand spacing text s).1 with
  | nil =>
    rw [hg] at hlen
    have := L_rows_pos h_expand v_expand
    simp at hlen
    omega
  | cons r t =>
    have hr : r ∈ (build_grid rng h_expand v_expand spacing text s).1 := by
      rw [hg]
      exact List.mem_cons_self r t
    rw [List.headD_cons, hw r hr]

/-- C5: grid generation is a pure function of the seed and the phrase: the
`random` module is a deterministic generator fully determined by its seed
(modelled by `seed_state`), and `build_grid` has no other source of
nondeterminism, so two runs with identical seed and phrase produce identical
grids and hence identical `CellData` sequences, draw for draw. -/
theorem build_grid_deterministic (σ : Type) (rng : RNG σ) (h_expand v_expand : Int)
    (spacing : Nat) (seed_state : Nat → σ) (seed : Nat) (text : List Char) :
    build_grid rng h_expand v_expand spacing text (seed_state seed) =
      build_grid rng h_expand v_expand spacing text (seed_state seed) ∧
    cell_sequence (build_grid rng h_expand v_expand spacing text (seed_state seed)).1 =
      cell_sequence (build_grid rng h_expand v_expand spacing text (seed_state seed)).1 :=
  ⟨rfl, rfl⟩

/-! ### Lemmas about the global tile-index range table -/

theorem psum_mono (l : List Nat) : ∀ i j, i ≤ j → psum l i ≤ psum l j := by
  induction l with
  | nil =>
    intro i j _
    cases i <;> cases j <;> simp [psum]
  | cons s rest ih =>
    intro i j hij
    cases i with
    | zero =>
      cases j with
      | zero => exact Nat.le_refl _
      | succ j2 => exact Nat.zero_le _
    | succ i2 =>
      cases j with
      | zero => omega
      | succ j2 =>
        rw [psum, psum]
        have := ih i2 j2 (by omega)
        omega

theorem psum_exists (l : List Nat) : ∀ mv : Nat, mv < psum l l.length →
    ∃ i, i < l.length ∧ psum l i ≤ mv ∧ mv < psum l (i + 1) := by
  induction l with
  | nil => intro mv h; simp [psum] at h
  | cons s rest ih =>
    intro mv h
    rw [List.length_cons, psum] at h
    by_cases hs : mv < s
    · refine ⟨0, by simp, by simp [psum], ?_⟩
      simp [psum]
      omega
    · obtain ⟨i, hi, h1, h2⟩ := ih (mv - s) (by omega)
      refine ⟨i + 1, by simp [hi], ?_, ?_⟩
      · rw [psum]; omega
      · rw [psum]; omega

theorem build_ranges_length (m : Manifest) (fs : FileDims) :
    ∀ (chunks : List RawChunk) (off : Int),
      (build_ranges m fs chunks off).length = chunks.length := by
  intro chunks
  induction chunks with
  | nil => intro off; rfl
  | cons c rest ih => intro off; simp [build_ranges, ih]

theorem build_ranges_hi (m : Manifest) (fs : FileDims) :
    ∀ (chunks : List RawChunk) (off : Int) (r : TRange), r ∈ build_ranges m fs chunks off →
      r.hi = r.lo + ((r.nx * r.ny : Nat) : Int) := by
  intro chunks
  induction chunks with
  | nil => intro off r hr; simp [build_ranges] at hr
  | cons c rest ih =>
    intro off r hr
    simp only [build_ranges] at hr
    rcases List.mem_cons.mp hr with h | h
    · subst h; rfl
    · exact ih _ r h

theorem build_ranges_get (m : Manifest) (fs : FileDims) :
    ∀ (chunks : List RawChunk) (off : Int) (i : Nat)
      (hil : i < (build_ranges m fs chunks off).length),
      ((build_ranges m fs chunks off).get ⟨i, hil⟩).lo =
        off + (psum (sizes_of m fs chunks) i : Int) ∧
      ((build_ranges m fs chunks off).get ⟨i, hil⟩).hi =
        off + (psum (sizes_of m fs chunks) (i + 1) : Int) := by
  intro chunks
  induction chunks with
  | nil => intro off i hil; simp [build_ranges] at hil
  | cons c rest ih =>
    intro off i hil
    cases i with
    | zero =>
      constructor
      · simp [build_ranges, sizes_of, psum]
      · simp [build_ranges, sizes_of, psum]
    | succ i2 =>
      have hil2 : i2 < (build_ranges m fs rest
          (off + ((get_chunk_dimensions m fs c).1 * (get_chunk_dimensions m fs c).2 : Nat))).length := by
        simp only [build_ranges, List.length_cons] at hil
        omega
      obtain ⟨h1, h2⟩ := ih
        (off + ((get_chunk_dimensions m fs c).1 * (get_chunk_dimensions m fs c).2 : Nat)) i2 hil2
      constructor
      · simp only [build_ranges, List.get_cons_succ]
        rw [h1]
        simp only [sizes_of, List.map_cons, psum]
        push_cast
        ring
      · simp only [build_ranges, List.get_cons_succ]
        rw [h2]
        simp only [sizes_of, List.map_cons, psum]
        push_cast
        ring

/-- C3: the range table partitions the half-open global index interval
`[0, totalTileCount)`: chunk `i` occupies `[offset_i, offset_i + nx_i*ny_i)`
with `offset_i` the cumulative tile count of the preceding chunks, and every
index below the total lies in exactly one range (no gaps, no overlaps). -/
theorem chunk_ranges_partition (m : Manifest) (fs : FileDims) :
    (ranges_of m fs).length = m.chunks.length ∧
    (∀ (i : Nat) (hil : i < (ranges_of m fs).length),
      ((ranges_of m fs).get ⟨i, hil⟩).lo = (psum (chunk_sizes m fs) i : Int) ∧
      ((ranges_of m fs).get ⟨i, hil⟩).hi = (psum (chunk_sizes m fs) (i + 1) : Int)) ∧
    (∀ t : Int, 0 ≤ t → t < (psum (chunk_sizes m fs) m.chunks.length : Int) →
      ∃! i : Nat, ∃ hil : i < (ranges_of m fs).length,
        ((ranges_of m fs).get ⟨i, hil⟩).lo ≤ t ∧
        t < ((ranges_of m fs).get ⟨i, hil⟩).hi) := by
  have hlen : (ranges_of m fs).length = m.chunks.length := build_ranges_length m fs m.chunks 0
  have hclen : (chunk_sizes m fs).length = m.chunks.length := by
    simp [chunk_sizes, sizes_of]
  have hget : ∀ (i : Nat) (hil : i < (ranges_of m fs).length),
      ((ranges_of m fs).get ⟨i, hil⟩).lo = (psum (chunk_sizes m fs) i : Int) ∧
      ((ranges_of m fs).get ⟨i, hil⟩).hi = (psum (chunk_sizes m fs) (i + 1) : Int) := by
    intro i hil
    obtain ⟨h1, h2⟩ := build_ranges_get m fs m.chunks 0 i hil
    rw [chunk_sizes]
    constructor
    · have h1b : ((ranges_of m fs).get ⟨i, hil⟩).lo =
          0 + (psum (sizes_of m fs m.chunks) i : Int) := h1
      omega
    · have h2b : ((ranges_of m fs).get ⟨i, hil⟩).hi =
          0 + (psum (sizes_of m fs m.chunks) (i + 1) : Int) := h2
      omega
  refine ⟨hlen, hget, ?_⟩
  intro t ht0 htlt
  have htn : t.toNat < psum (chunk_sizes m fs) (chunk_sizes m fs).length := by
    rw [hclen]
    omega
  obtain ⟨i, hilen, hp1, hp2⟩ := psum_exists (chunk_sizes m fs) t.toNat htn
  have hil : i < (ranges_of m fs).length := by omega
  obtain ⟨hlo, hhi⟩ := hget i hil
  refine ⟨i, ⟨hil, by omega, by omega⟩, ?_⟩
  intro j hj
  obtain ⟨hjl, hjlo, hjhi⟩ := hj
  obtain ⟨hjlo2, hjhi2⟩ := hget j hjl
  rw [hjlo2] at hjlo
  rw [hjhi2] at hjhi
  by_contra hne
  rcases Nat.lt_or_ge j i with hlt | hge
  · have := psum_mono (chunk_sizes m fs) (j + 1) i (by omega)
    omega
  · have hgt : i < j := by omega
    have := psum_mono (chunk_sizes m fs) (i + 1) j (by omega)
    omega

/-- Witness for `chunk_ranges_partition`: in a manifest with chunks of 6 and 4
tiles, global tile index 7 lies in exactly one chunk range. -/
theorem chunk_ranges_partition_witness :
    ∃! i : Nat, ∃ hil : i < (ranges_of manifest_two fs_none).length,
      ((ranges_of manifest_two fs_none).get ⟨i, hil⟩).lo ≤ (7 : Int) ∧
      (7 : Int) < ((ranges_of manifest_two fs_none).get ⟨i, hil⟩).hi :=
  (chunk_ranges_partition manifest_two fs_none).2.2 7 (by decide) (by decide)

/-! ### Bounds of positions produced by `tile_info_for_id` -/

theorem find_range_spec {ranges : List TRange} {t : Int} {r : TRange}
    (h : find_range ranges t = some r) : r ∈ ranges ∧ r.lo ≤ t ∧ t < r.hi := by
  have hm := List.mem_of_find?_eq_some h
  have hp := List.find?_some h
  simp only [decide_eq_true_eq] at hp
  exact ⟨hm, hp⟩

theorem tile_pos_rect_bound {a b w : Int} (h : a < b) (h0 : 0 ≤ w) :
    a * w + w ≤ b * w := by
  have h1 : a + 1 ≤ b := by omega
  calc a * w + w = (a + 1) * w := by ring
    _ ≤ b * w := mul_le_mul_of_nonneg_right h1 h0

theorem tile_info_bounds {m : Manifest} {ranges : List TRange}
    (hR : ∀ r ∈ ranges, r.hi = r.lo + ((r.nx * r.ny : Nat) : Int))
    {tid : Option Int} {pos : TilePosition}
    (hok : tile_info_for_id m ranges tid = .ok (some pos)) :
    ∃ t r, tid = some t ∧ find_range ranges t = some r ∧ r ∈ ranges ∧
      r.chunk.file = some pos.file ∧
      pos.tx = (t - r.lo) % (r.nx : Int) ∧
      pos.ty = (t - r.lo) / (r.nx : Int) ∧
      pos.width = r.chunk.sprite_width.getD m.tile_width ∧
      pos.height = r.chunk.sprite_height.getD m.tile_height ∧
      pos.offx = r.chunk.sprite_offset_x.getD 0 ∧
      pos.offy = r.chunk.sprite_offset_y.getD 0 ∧
      0 ≤ pos.tx ∧ pos.tx < (r.nx : Int) ∧ 0 ≤ pos.ty ∧ pos.ty < (r.ny : Int) := by
  cases tid with
  | none => simp [tile_info_for_id] at hok
  | some t =>
    cases hfr : find_range ranges t with
    | none => simp [tile_info_for_id, hfr] at hok
    | some r =>
      cases hcf : r.chunk.file with
      | none => simp [tile_info_for_id, hfr, hcf] at hok
      | some f =>
        simp only [tile_info_for_id, hfr, hcf] at hok
        have hpos := (Option.some.inj (Except.ok.inj hok)).symm
        obtain ⟨hmem, hlo, hhi⟩ := find_range_spec hfr
        have hhiEq := hR r hmem
        have hoff0 : 0 ≤ t - r.lo := by omega
        have hofflt : t - r.lo < ((r.nx * r.ny : Nat) : Int) := by omega
        have hnx : 0 < r.nx := by
          rcases Nat.eq_zero_or_pos r.nx with h0 | h0
          · rw [h0, Nat.zero_mul] at hofflt
            push_cast at hofflt
            omega
          · exact h0
        have hnxI : (0 : Int) < (r.nx : Int) := by exact_mod_cast hnx
        subst hpos
        refine ⟨t, r, rfl, hfr, hmem, hcf, rfl, rfl, rfl, rfl, rfl, rfl, ?_, ?_, ?_, ?_⟩
        · exact Int.emod_nonneg _ hnxI.ne'
        · exact Int.emod_lt_of_pos _ hnxI
        · exact Int.ediv_nonneg hoff0 hnxI.le
        · rw [Int.ediv_lt_iff_lt_mul hnxI]
          push_cast at hofflt
          rw [mul_comm]
          exact hofflt

theorem tile_info_full_bounds {m : Manifest} {ranges : List TRange}
    (hR : ∀ r ∈ ranges, r.hi = r.lo + ((r.nx * r.ny : Nat) : Int))
    {tid : Option Int} {pos : TilePosition}
    (hok : tile_info_for_id m ranges tid = .ok (some pos)) :
    ∃ t r, tid = some t ∧ find_range ranges t = some r ∧ r ∈ ranges ∧
      r.chunk.file = some pos.file ∧
      pos.tx = (t - r.lo) % (r.nx : Int) ∧
      pos.ty = (t - r.lo) / (r.nx : Int) ∧
      pos.width = r.chunk.sprite_width.getD m.tile_width ∧
      pos.height = r.chunk.sprite_height.getD m.tile_height ∧
      pos.offx = r.chunk.sprite_offset_x.getD 0 ∧
      pos.offy = r.chunk.sprite_offset_y.getD 0 ∧
      0 ≤ pos.tx ∧ pos.tx < (r.nx : Int) ∧ 0 ≤ pos.ty ∧ pos.ty < (r.ny : Int) ∧
      pos.tx * (pos.width : Int) + (pos.width : Int) ≤ (r.nx : Int) * (pos.width : Int) ∧
      pos.ty * (pos.height : Int) + (pos.height : Int) ≤ (r.ny : Int) * (pos.height : Int) ∧
      crop_rect pos = (pos.tx * (pos.width : Int), pos.ty * (pos.height : Int),
        pos.tx * (pos.width : Int) + (pos.width : Int),
        pos.ty * (pos.height : Int) + (pos.height : Int)) := by
  obtain ⟨t, r, htid, hfr, hrm, hfile, htx, hty, hw, hh, hox, hoy, b1, b2, b3, b4⟩ :=
    tile_info_bounds hR hok
  exact ⟨t, r, htid, hfr, hrm, hfile, htx, hty, hw, hh, hox, hoy, b1, b2, b3, b4,
    tile_pos_rect_bound b2 (by positivity), tile_pos_rect_bound b4 (by positivity), rfl⟩

/-- C2: any tile position `find_tile` produces (foreground or background)
belongs to the chunk that owns the resolved global index: `r` is the range
`find_range` locates for the matched entry's normalized index `t`, the
position's file, sprite size and offsets are exactly that chunk's, its column
`(t - lo) mod nx` lies in `[0, nx)` and its row `(t - lo) div nx` in
`[0, ny)` of that chunk's grid, so the crop rectangle
`(tx*width, ty*height, width, height)` that `get_tile_image` cuts — with no
defensive clamping — never reaches past the `nx*width` by `ny*height` extent
implied by the owning chunk's grid. -/
theorem find_tile_in_bounds (m : Manifest) (fs : FileDims) (item_id : String)
    (info : TileInfo) (pos : TilePosition)
    (hfind : find_tile m fs item_id = .ok (some info))
    (hpos : info.fg = some pos ∨ info.bg = some pos) :
    ∃ e t r,
      find_entry m.chunks item_id = some e ∧
      ((info.fg = some pos ∧ normalize_ref e.fg = some t) ∨
       (info.bg = some pos ∧ normalize_ref e.bg = some t)) ∧
      find_range (ranges_of m fs) t = some r ∧
      r ∈ ranges_of m fs ∧
      r.chunk.file = some pos.file ∧
      pos.tx = (t - r.lo) % (r.nx : Int) ∧
      pos.ty = (t - r.lo) / (r.nx : Int) ∧
      pos.width = r.chunk.sprite_width.getD m.tile_width ∧
      pos.height = r.chunk.sprite_height.getD m.tile_height ∧
      pos.offx = r.chunk.sprite_offset_x.getD 0 ∧
      pos.offy = r.chunk.sprite_offset_y.getD 0 ∧
      0 ≤ pos.tx ∧ pos.tx < (r.nx : Int) ∧ 0 ≤ pos.ty ∧ pos.ty < (r.ny : Int) ∧
      pos.tx * (pos.width : Int) + (pos.width : Int) ≤ (r.nx : Int) * (pos.width : Int) ∧
      pos.ty * (pos.height : Int) + (pos.height : Int) ≤ (r.ny : Int) * (pos.height : Int) ∧
      crop_rect pos = (pos.tx * (pos.width : Int), pos.ty * (pos.height : Int),
        pos.tx * (pos.width : Int) + (pos.width : Int),
        pos.ty * (pos.height : Int) + (pos.height : Int)) := by
  have hR : ∀ r ∈ ranges_of m fs, r.hi = r.lo + ((r.nx * r.ny : Nat) : Int) :=
    fun r hr => build_ranges_hi m fs m.chunks 0 r hr
  simp only [find_tile] at hfind
  cases hfe : find_entry m.chunks item_id with
  | none => simp [hfe] at hfind
  | some e =>
    simp only [hfe] at hfind
    cases h1 : tile_info_for_id m (ranges_of m fs) (normalize_ref e.fg) with
    | error u => simp [h1] at hfind
    | ok fgv =>
      simp only [h1] at hfind
      cases h2 : tile_info_for_id m (ranges_of m fs) (normalize_ref e.bg) with
      | error u => simp [h2] at hfind
      | ok bgv =>
        simp only [h2] at hfind
        have hinfo : info = ⟨fgv, bgv⟩ := (Option.some.inj (Except.ok.inj hfind)).symm
        subst hinfo
        rcases hpos with hp | hp
        · simp only at hp
          rw [hp] at h1
          obtain ⟨t, r, htid, hfr, hrm, hfile, htx, hty, hw, hh, hox, hoy,
            b1, b2, b3, b4, rb1, rb2, hcr⟩ := tile_info_full_bounds hR h1
          exact ⟨e, t, r, rfl, Or.inl ⟨hp, htid⟩, hfr, hrm, hfile, htx, hty, hw, hh,
            hox, hoy, b1, b2, b3, b4, rb1, rb2, hcr⟩
        · simp only at hp
          rw [hp] at h2
          obtain ⟨t, r, htid, hfr, hrm, hfile, htx, hty, hw, hh, hox, hoy,
            b1, b2, b3, b4, rb1, rb2, hcr⟩ := tile_info_full_bounds hR h2
          exact ⟨e, t, r, rfl, Or.inr ⟨hp, htid⟩, hfr, hrm, hfile, htx, hty, hw, hh,
            hox, hoy, b1, b2, b3, b4, rb1, rb2, hcr⟩

/-- Witness for `find_tile_in_bounds`: for `mon_zombie` in `manifest4x4`, the
owning range is the single 4x4 chunk, the resolved index is 5, and the
position's fields all come from that chunk. -/
theorem find_tile_in_bounds_witness :
    ∃ e t r,
      find_entry manifest4x4.chunks "mon_zombie" = some e ∧
      ((info_zombie.fg = some pos_zombie ∧ normalize_ref e.fg = some t) ∨
       (info_zombie.bg = some pos_zombie ∧ normalize_ref e.bg = some t)) ∧
      find_range (ranges_of manifest4x4 fs_none) t = some r ∧
      r ∈ ranges_of manifest4x4 fs_none ∧
      r.chunk.file = some pos_zombie.file ∧
      pos_zombie.tx = (t - r.lo) % (r.nx : Int) ∧
      pos_zombie.ty = (t - r.lo) / (r.nx : Int) ∧
      pos_zombie.width = r.chunk.sprite_width.getD manifest4x4.tile_width ∧
      pos_zombie.height = r.chunk.sprite_height.getD manifest4x4.tile_height ∧
      pos_zombie.offx = r.chunk.sprite_offset_x.getD 0 ∧
      pos_zombie.offy = r.chunk.sprite_offset_y.getD 0 ∧
      0 ≤ pos_zombie.tx ∧ pos_zombie.tx < (r.nx : Int) ∧
      0 ≤ pos_zombie.ty ∧ pos_zombie.ty < (r.ny : Int) ∧
      pos_zombie.tx * (pos_zombie.width : Int) + (pos_zombie.width : Int) ≤
        (r.nx : Int) * (pos_zombie.width : Int) ∧
      pos_zombie.ty * (pos_zombie.height : Int) + (pos_zombie.height : Int) ≤
        (r.ny : Int) * (pos_zombie.height : Int) ∧
      crop_rect pos_zombie =
        (pos_zombie.tx * (pos_zombie.width : Int), pos_zombie.ty * (pos_zombie.height : Int),
         pos_zombie.tx * (pos_zombie.width : Int) + (pos_zombie.width : Int),
         pos_zombie.ty * (pos_zombie.height : Int) + (pos_zombie.height : Int)) :=
  find_tile_in_bounds manifest4x4 fs_none "mon_zombie" info_zombie pos_zombie
    (by decide) (Or.inl (by decide))

/-- C4: in a manifest with one 4x4 chunk (16 tiles) whose entry maps
`mon_zombie` to foreground index 5, `find_tile` resolves the id to tile
column 1 and row 1 (`5 mod 4` and `5 div 4`, row-major). -/
theorem find_tile_mon_zombie_example :
    find_tile manifest4x4 fs_none "mon_zombie" =
      .ok (some ⟨some ⟨"tiles.png", 1, 1, 32, 32, 0, 0⟩, none⟩) := by
  decide

/-! ### File-less placeholder chunks and the per-call range table -/

theorem tile_info_fileless {m : Manifest} {ranges : List TRange} {t : Int} {r : TRange}
    (hfr : find_range ranges t = some r) (hf : r.chunk.file = none) :
    tile_info_for_id m ranges (some t) = .error () := by
  simp [tile_info_for_id, hfr, hf]

/-- C10: when a tile entry's normalized foreground (or background) index falls
inside the global-index range of a chunk that declares no spritesheet file
(the file-less 1x1 placeholder), `find_tile` raises the `KeyError` on
`chunk['file']` — modelled as `.error ()` — instead of returning a position or
a "not found". -/
theorem find_tile_fileless_error (m : Manifest) (fs : FileDims) (item_id : String)
    (e : TileEntry) (he : find_entry m.chunks item_id = some e)
    (hbad :
      (∃ t r, normalize_ref e.fg = some t ∧ find_range (ranges_of m fs) t = some r ∧
        r.chunk.file = none) ∨
      (∃ t r, normalize_ref e.bg = some t ∧ find_range (ranges_of m fs) t = some r ∧
        r.chunk.file = none)) :
    find_tile m fs item_id = .error () := by
  simp only [find_tile, he]
  rcases hbad with ⟨t, r, hn, hfr, hf⟩ | ⟨t, r, hn, hfr, hf⟩
  · rw [hn, tile_info_fileless hfr hf]
  · cases h1 : tile_info_for_id m (ranges_of m fs) (normalize_ref e.fg) with
    | error u => cases u; rfl
    | ok fgv =>
      simp only [h1]
      rw [hn, tile_info_fileless hfr hf]

/-- Witness for `find_tile_fileless_error`: in `manifest_fileless` the entry
`x` points at index 0, owned by the file-less placeholder chunk. -/
theorem find_tile_fileless_error_witness :
    find_tile manifest_fileless fs_none "x" = .error () :=
  find_tile_fileless_error manifest_fileless fs_none "x" ⟨["x"], some (.num 0), none⟩
    (by decide)
    (Or.inl ⟨0, ⟨0, 1, chunk_fileless, 1, 1⟩, by decide, by decide, by decide⟩)

/-- C8 counterexample: the range table is not built exactly once per run —
`find_tile` reconstructs it at every call (lines 190-202 run unconditionally),
so a run that performs two lookups builds two tables, not one. -/
theorem range_table_rebuilt_counterexample :
    (range_tables_built manifest4x4 fs_none ["mon_zombie", "t_grass"]).length ≠ 1 := by
  decide

/-- C8 amended: the range table is reconstructed on every `find_tile` call
rather than memoized; because the manifest data and the filesystem are
read-only for the rest of the run, every reconstruction yields the identical
table, so all calls behave as if they read a single table. -/
theorem range_table_rebuilds_identical (m : Manifest) (fs : FileDims) (ids : List String) :
    range_tables_built m fs ids = List.replicate ids.length (ranges_of m fs) := by
  induction ids with
  | nil => rfl
  | cons a t ih =>
    simp only [range_tables_built, List.map_cons, List.length_cons,
      List.replicate_succ] at *
    rw [ih]
    rfl

/-! ### Per-cell layer assembly -/

/-- C1 amended: the terrain layer is the only layer that is individually
skippable — when the item id resolves with a foreground and the terrain id
does not resolve (or has no foreground), the fill, item sprite and border are
still drawn; but when the item id itself fails to resolve (or has no
foreground), the whole cell is skipped and no layer at all is drawn, because
the entire block is guarded by `if tile_info and tile_info.fg`. -/
theorem cell_layers_spec (m : Manifest) (fs : FileDims) (item_id terrain_id : String) :
    (find_tile m fs item_id = .ok none → cell_layers m fs item_id terrain_id = .ok []) ∧
    (∀ info, find_tile m fs item_id = .ok (some info) → info.fg = none →
      cell_layers m fs item_id terrain_id = .ok []) ∧
    (∀ info fg_pos, find_tile m fs item_id = .ok (some info) → info.fg = some fg_pos →
      (find_tile m fs terrain_id = .ok none ∨
        ∃ ti, find_tile m fs terrain_id = .ok (some ti) ∧ ti.fg = none) →
      cell_layers m fs item_id terrain_id =
        .ok [Layer.fill, Layer.item fg_pos, Layer.border]) ∧
    (∀ info fg_pos ti tp, find_tile m fs item_id = .ok (some info) → info.fg = some fg_pos →
      find_tile m fs terrain_id = .ok (some ti) → ti.fg = some tp →
      cell_layers m fs item_id terrain_id =
        .ok [Layer.fill, Layer.terrain tp, Layer.item fg_pos, Layer.border]) := by
  refine ⟨?_, ?_, ?_, ?_⟩
  · intro h
    simp [cell_layers, h]
  · intro info h hfg
    simp [cell_layers, h, hfg]
  · intro info fg_pos h hfg hter
    rcases hter with ht | ⟨ti, ht, htf⟩
    · simp [cell_layers, h, hfg, ht, SPRITE_BORDER_WIDTH]
    · simp [cell_layers, h, hfg, ht, htf, SPRITE_BORDER_WIDTH]
  · intro info fg_pos ti tp h hfg ht htp
    simp [cell_layers, h, hfg, ht, htp, SPRITE_BORDER_WIDTH]

/-- C1 counterexample: a cell whose item id does not resolve draws nothing at
all — in particular the opaque fill is not drawn — even though its terrain id
resolves; the claim that the remaining layers still draw fails here. -/
theorem cell_layers_item_unresolved_counterexample :
    cell_layers manifest4x4 fs_none "mon_missing" "t_grass" = .ok [] ∧
    ¬ ∃ layers, cell_layers manifest4x4 fs_none "mon_missing" "t_grass" = .ok layers ∧
      Layer.fill ∈ layers := by
  refine ⟨by decide, ?_⟩
  rintro ⟨layers, heq, hmem⟩
  have h0 : cell_layers manifest4x4 fs_none "mon_missing" "t_grass" = .ok [] := by decide
  rw [h0] at heq
  have hl : layers = ([] : List Layer) := (Except.ok.inj heq).symm
  rw [hl] at hmem
  exact absurd hmem (List.not_mem_nil _)

/-- Witness for `cell_layers_spec`: concrete cells of `manifest4x4` in each of
the three resolution situations. -/
theorem cell_layers_spec_witness :
    cell_layers manifest4x4 fs_none "mon_missing" "t_missing" = .ok [] ∧
    cell_layers manifest4x4 fs_none "mon_zombie" "t_missing" =
      .ok [Layer.fill, Layer.item pos_zombie, Layer.border] ∧
    cell_layers manifest4x4 fs_none "mon_zombie" "t_grass" =
      .ok [Layer.fill, Layer.terrain pos_grass, Layer.item pos_zombie, Layer.border] :=
  ⟨(cell_layers_spec manifest4x4 fs_none "mon_missing" "t_missing").1 (by decide),
   (cell_layers_spec manifest4x4 fs_none "mon_zombie" "t_missing").2.2.1 info_zombie pos_zombie
     (by decide) (by decide) (Or.inl (by decide)),
   (cell_layers_spec manifest4x4 fs_none "mon_zombie" "t_grass").2.2.2 info_zombie pos_zombie
     ⟨some pos_grass, none⟩ pos_grass (by decide) (by decide) (by decide) (by decide)⟩

/-- Witness for `build_grid_width` at a concrete generator, phrase and
spacing. -/
theorem build_grid_width_witness :
    ((build_grid unit_rng 0 0 1 "PANIC".toList ()).1.all
      (fun row => row.length == grid_width 0 0 1 "PANIC".toList) = true) ∧
    (build_grid unit_rng 0 0 0 "DO".toList ()).1.length = 7 ∧
    ((build_grid unit_rng 0 0 0 "DO".toList ()).1.all
      (fun row => row.length == 10) = true) :=
  build_grid_width Unit unit_rng 0 0 1 "PANIC".toList ()

/-- Witness for `build_grid_rectangular` at a concrete generator and a
negative vertical thickness. -/
theorem build_grid_rectangular_witness :
    (build_grid unit_rng 0 (-1) 1 "DONT".toList ()).1.all
      (fun row => row.length ==
        ((build_grid unit_rng 0 (-1) 1 "DONT".toList ()).1.headD []).length) = true :=
  build_grid_rectangular Unit unit_rng 0 (-1) 1 "DONT".toList ()

/-- Witness for `build_grid_deterministic` at a concrete generator and seed. -/
theorem build_grid_deterministic_witness :
    build_grid unit_rng 0 0 1 "PANIC".toList ((fun _ => ()) 42) =
      build_grid unit_rng 0 0 1 "PANIC".toList ((fun _ => ()) 42) ∧
    cell_sequence (build_grid unit_rng 0 0 1 "PANIC".toList ((fun _ => ()) 42)).1 =
      cell_sequence (build_grid unit_rng 0 0 1 "PANIC".toList ((fun _ => ()) 42)).1 :=
  build_grid_deterministic Unit unit_rng 0 0 1 (fun _ => ()) 42 "PANIC".toList

/-- Witness for `range_table_rebuilds_identical` at a concrete two-lookup
run. -/
theorem range_table_rebuilds_identical_witness :
    range_tables_built manifest4x4 fs_none ["mon_zombie", "t_grass"] =
      List.replicate 2 (ranges_of manifest4x4 fs_none) :=
  range_table_rebuilds_identical manifest4x4 fs_none ["mon_zombie", "t_grass"]
